import Mathlib

/-!
Verification of `ntoskrnl/ob/dirobj.c` (ReactOS directory object
implementation): a shallow embedding of `NtQueryDirectoryObject` and
`NtCreateDirectoryObject` together with theorems about enumeration,
buffer-size accounting, output layout, locking discipline and reference
counting.

Wide characters (`WCHAR`) are modelled as natural numbers; a Unicode
string is a list of wide characters (its `Length` field in bytes is
`sizeofWCHAR *` its length).  NTSTATUS values are an inductive type with
`ntSuccess` playing the role of the `NT_SUCCESS` macro (true exactly for
the non-error, non-warning codes used here: `STATUS_SUCCESS` and
`STATUS_MORE_ENTRIES`).
-/

/-- `sizeof(WCHAR)` on the target platform. -/
def sizeofWCHAR : Nat := 2

/-- `sizeof(UNICODE_STRING)` on the 32-bit target: USHORT Length,
USHORT MaximumLength, PWSTR Buffer. -/
def sizeofUNICODE_STRING : Nat := 8

/-- `sizeof(OBJECT_DIRECTORY_INFORMATION)`: two `UNICODE_STRING`s
(ObjectName, ObjectTypeName). -/
def sizeofODI : Nat := 2 * sizeofUNICODE_STRING

/-- The NTSTATUS codes reachable in `dirobj.c`, plus generic failure codes
returned by the external collaborators. -/
inductive Status where
  | success
  | moreEntries
  | noMoreEntries
  | bufferTooSmall
  | insufficientResources
  | invalidHandle
  | objectNameCollision
  | accessViolation
deriving DecidableEq, Repr

/-- The `NT_SUCCESS` macro: true exactly for the severity-success codes
among the statuses above (`STATUS_SUCCESS` = 0 and `STATUS_MORE_ENTRIES`
= 0x105 are successes; `STATUS_NO_MORE_ENTRIES` = 0x8000001A is a warning
and the rest are errors, all with the sign bit set). -/
def ntSuccess : Status → Bool
  | .success => true
  | .moreEntries => true
  | _ => false

/-- One member of a directory as enumeration sees it, read through
`CONTAINING_RECORD`/`HEADER_TO_OBJECT_NAME`: the object's name (empty list
models `Name.Length == 0`, i.e. an anonymous member) with its
`MaximumLength`, and the type object's name with its `MaximumLength`. -/
structure DirEntry where
  name : List Nat
  nameMax : Nat
  typeName : List Nat
  typeMax : Nat
deriving DecidableEq, Repr

/-- `EntrySize` as computed at dirobj.c:227-231:
`sizeof(OBJECT_DIRECTORY_INFORMATION) + (Name != NULL ? Name->Length +
sizeof(WCHAR) : 0) + Type->Name.Length + sizeof(WCHAR)`, where
`Name != NULL` iff the object name has nonzero length. -/
def entrySize (e : DirEntry) : Nat :=
  sizeofODI +
    (if e.name.isEmpty then 0 else sizeofWCHAR * e.name.length + sizeofWCHAR) +
    sizeofWCHAR * e.typeName.length + sizeofWCHAR

/-- The mutable locals of the scan loop in `NtQueryDirectoryObject`:
`NextEntry`, `SkipEntries`, `RequiredSize`, the records staged so far
(`nDirectories` is their count) and `Status`. -/
structure ScanState where
  nextEntry : Nat
  skip : Nat
  required : Nat
  staged : List DirEntry
  status : Status
deriving DecidableEq, Repr

/-- The `for(ListEntry = Directory->head.Flink; ...)` loop of
`NtQueryDirectoryObject` (dirobj.c:209-285).  The returned Bool is
`ListEntry == &Directory->head` at loop exit: `true` when the list was
exhausted, `false` when the loop broke out at an entry. -/
def scanLoop (bufLen : Nat) (single : Bool) :
    List DirEntry → ScanState → ScanState × Bool
  | [], s => (s, true)
  | e :: rest, s =>
    -- NextEntry++ happens at the top of every iteration
    let s1 : ScanState := { s with nextEntry := s.nextEntry + 1 }
    if s1.skip = 0 then
      if s1.required + entrySize e ≤ bufLen then
        -- stage the entry, bump nDirectories and RequiredSize
        let s2 : ScanState :=
          { s1 with staged := s1.staged ++ [e],
                    required := s1.required + entrySize e,
                    status := .success }
        if single then (s2, false) else scanLoop bufLen single rest s2
      else
        -- entry does not fit: in single mode report the size it needed
        let s2 : ScanState :=
          if single then
            { s1 with required := s1.required + entrySize e,
                      status := .bufferTooSmall }
          else s1
        ({ s2 with nextEntry := s2.nextEntry - 1 }, false)
    else
      scanLoop bufLen single rest { s1 with skip := s1.skip - 1 }

/-- The locals as initialized before the loop: `NextEntry = 0`,
`SkipEntries = RestartScan ? 0 : *Context`, `RequiredSize =
sizeof(OBJECT_DIRECTORY_INFORMATION)`, no records staged,
`Status = STATUS_NO_MORE_ENTRIES`. -/
def initState (restart : Bool) (ctx : Nat) : ScanState :=
  { nextEntry := 0
    skip := if restart then 0 else ctx
    required := sizeofODI
    staged := []
    status := .noMoreEntries }

/-- The whole scan phase over the directory's member list. -/
def scanPhase (es : List DirEntry) (bufLen : Nat) (single restart : Bool)
    (ctx : Nat) : ScanState × Bool :=
  scanLoop bufLen single es (initState restart ctx)

/-- One `OBJECT_DIRECTORY_INFORMATION` record as it sits in the output
buffer after compaction: for each of the two string descriptors the
`Length`, `MaximumLength` and `Buffer` fields, the latter as a
wide-character offset from the start of the output buffer (`none` models
a NULL pointer). -/
structure OutRecord where
  nameLen : Nat
  nameMax : Nat
  nameOff : Option Nat
  typeLen : Nat
  typeMax : Nat
  typeOff : Option Nat
deriving DecidableEq, Repr

/-- The all-zero terminator record written by the `memset` at
dirobj.c:303-306. -/
def zeroRecord : OutRecord :=
  { nameLen := 0, nameMax := 0, nameOff := none
    typeLen := 0, typeMax := 0, typeOff := none }

/-- The compaction loop of dirobj.c:314-354: walk the staged records,
append each present name and each type name (one terminating wide null
each) to the string heap while rewriting the descriptors' `Buffer`
pointers to `deststrbuf` (the running wide-character offset `off` inside
the destination buffer) and accumulating `CopyBytes` (`cb`). -/
def compactLoop : List DirEntry → Nat → Nat →
    List OutRecord × List Nat × Nat
  | [], _, cb => ([], [], cb)
  | e :: rest, off, cb =>
    -- if(DirInfo->ObjectName.Length > 0): copy the name, null-terminate
    let hasName : Bool := !e.name.isEmpty
    let nameOff : Option Nat := if hasName then some off else none
    let nameChunk : List Nat := if hasName then e.name ++ [0] else []
    let off1 : Nat := if hasName then off + (e.name.length + 1) else off
    let cb1 : Nat :=
      if hasName then cb + (e.name.length + 1) * sizeofWCHAR else cb
    -- the type name is copied and null-terminated unconditionally
    let typeOff : Nat := off1
    let typeChunk : List Nat := e.typeName ++ [0]
    let off2 : Nat := off1 + (e.typeName.length + 1)
    let cb2 : Nat := cb1 + (e.typeName.length + 1) * sizeofWCHAR
    let rec0 : OutRecord :=
      { nameLen := if hasName then sizeofWCHAR * e.name.length else 0
        nameMax := if hasName then e.nameMax else 0
        nameOff := nameOff
        typeLen := sizeofWCHAR * e.typeName.length
        typeMax := e.typeMax
        typeOff := some typeOff }
    let res := compactLoop rest off2 cb2
    (rec0 :: res.1, nameChunk ++ typeChunk ++ res.2.1, res.2.2)

/-- Everything `NtQueryDirectoryObject` computes once the handle has been
resolved and the scratch buffer allocated: the final status, the staged
(delivered) entries, the laid-out record array and string heap, the
`CopyBytes`/`RequiredSize`/`NextEntry` locals, and the values written
back through the caller's `Context` and `ReturnLength` pointers (`none`
when the code does not write them). -/
structure QueryResult where
  status : Status
  delivered : List DirEntry
  records : List OutRecord
  heap : List Nat
  copyBytes : Nat
  required : Nat
  nextEntry : Nat
  ctxOut : Option Nat
  retLenOut : Option Nat
deriving DecidableEq, Repr

/-- The body of `NtQueryDirectoryObject` (dirobj.c:194-381) on the path
where `ObReferenceObjectByHandle` and `ExAllocatePool` both succeeded:
scan under the lock, override the status with `STATUS_MORE_ENTRIES` when
a multi-entry query broke out of the loop early (dirobj.c:287-292),
compact the staged records (dirobj.c:294-355), and perform the
caller-visible writes only when `NT_SUCCESS(Status) || ReturnSingleEntry`
(dirobj.c:360-381).  `retLenReq` models `ReturnLength != NULL`. -/
def queryCore (es : List DirEntry) (bufLen : Nat) (single restart : Bool)
    (ctx : Nat) (retLenReq : Bool) : QueryResult :=
  let r := scanPhase es bufLen single restart ctx
  let s := r.1
  let status : Status :=
    if !single && !r.2 then .moreEntries else s.status
  let n := s.staged.length
  let compacted :=
    if ntSuccess status = true ∧ 0 < n then
      -- strbuf/deststrbuf start right after the nDirectories + 1 records;
      -- CopyBytes starts at (nDirectories + 1) * sizeof(record)
      let res := compactLoop s.staged ((n + 1) * (sizeofODI / sizeofWCHAR))
                   ((n + 1) * sizeofODI)
      (res.1 ++ [zeroRecord], res.2.1, res.2.2)
    else ([], [], 0)
  let writes : Bool := ntSuccess status || single
  { status := status
    delivered := s.staged
    records := compacted.1
    heap := compacted.2.1
    copyBytes := compacted.2.2
    required := s.required
    nextEntry := s.nextEntry
    ctxOut := if writes then some s.nextEntry else none
    retLenOut := if writes && retLenReq then some s.required else none }

/-! ## Call-level model: events and the full call

The parts of `NtQueryDirectoryObject` outside the core computation —
handle resolution, scratch allocation, the spin lock, and the
caller-visible writes — are modelled as an event trace so that ordering
and balance properties (reference counting, lock discipline) can be
stated. -/

/-- The observable actions of one `NtQueryDirectoryObject` call:
`refAcquire`/`refRelease` are `ObReferenceObjectByHandle`'s acquired
reference and `ObDereferenceObject`; `scratchAlloc`/`scratchFree` are
`ExAllocatePool`/`ExFreePool` on the non-paged scratch buffer;
`lockAcquire`/`lockRelease` are `KeAcquireSpinLock`/`KeReleaseSpinLock`
on `Directory->Lock`; `readLinkage` is one loop iteration reading the
list linkage and the entry's size fields and string descriptors;
`stageScratch` is a write into the scratch buffer; the remaining three
are the writes into caller-visible memory. -/
inductive QEv where
  | refAcquire
  | scratchAlloc
  | lockAcquire
  | readLinkage
  | stageScratch
  | lockRelease
  | refRelease
  | copyToCaller (bytes : Nat)
  | writeCursor (v : Nat)
  | writeRetLen (v : Nat)
  | scratchFree
deriving DecidableEq, Repr

/-- The events of the scan loop: one `readLinkage` per iteration (the
loop reads the linkage also for skipped entries) and one `stageScratch`
per staged record, with the same branching as `scanLoop`. -/
def scanEvents (bufLen : Nat) (single : Bool) :
    List DirEntry → Nat → Nat → List QEv
  | [], _, _ => []
  | e :: rest, skip, required =>
    if skip = 0 then
      if required + entrySize e ≤ bufLen then
        if single then [.readLinkage, .stageScratch]
        else .readLinkage :: .stageScratch ::
          scanEvents bufLen single rest 0 (required + entrySize e)
      else [.readLinkage]
    else .readLinkage :: scanEvents bufLen single rest (skip - 1) required

/-- The `stageScratch` events of the compaction phase (dirobj.c:294-355),
one per staged record, emitted only when the compaction branch runs. -/
def stageEvents (r : QueryResult) : List QEv :=
  if ntSuccess r.status = true ∧ 0 < r.delivered.length then
    r.delivered.map (fun _ => QEv.stageScratch)
  else []

/-- The caller-visible writes of the deliver phase (dirobj.c:360-381),
performed only when `NT_SUCCESS(Status) || ReturnSingleEntry`: the copy
into the caller's buffer when `CopyBytes != 0`, the cursor write, and the
`ReturnLength` write when the caller supplied one. -/
def deliverEvents (single retLenReq : Bool) (r : QueryResult) : List QEv :=
  if ntSuccess r.status || single then
    (if r.copyBytes ≠ 0 then [QEv.copyToCaller r.copyBytes] else []) ++
    [QEv.writeCursor r.nextEntry] ++
    (if retLenReq then [QEv.writeRetLen r.required] else [])
  else []

/-- `NtQueryDirectoryObject` as a whole once probing succeeded: the
returned status and the event trace.  `resolveOk` is whether
`ObReferenceObjectByHandle` succeeds, `allocOk` whether `ExAllocatePool`
returns non-NULL.  On allocation failure the code sets
`STATUS_INSUFFICIENT_RESOURCES` and returns — note that the
`ObDereferenceObject` of dirobj.c:358 sits inside the
`TemporaryBuffer != NULL` branch, so the trace ends after `refAcquire`. -/
def NtQueryDirectoryObject (resolveOk allocOk : Bool) (es : List DirEntry)
    (bufLen : Nat) (single restart : Bool) (ctx : Nat) (retLenReq : Bool) :
    Status × List QEv :=
  if !resolveOk then (.invalidHandle, [])
  else if !allocOk then (.insufficientResources, [.refAcquire])
  else
    let r := queryCore es bufLen single restart ctx retLenReq
    let skip0 : Nat := if restart then 0 else ctx
    (r.status,
      [.refAcquire, .scratchAlloc, .lockAcquire] ++
      scanEvents bufLen single es skip0 sizeofODI ++
      stageEvents r ++
      [.lockRelease, .refRelease] ++
      deliverEvents single retLenReq r ++
      [.scratchFree])

/-- The observable actions of one `NtCreateDirectoryObject` call. -/
inductive CEv where
  | createObj
  | insertAttempt
  | markTemporary
  | derefObj
  | writeHandle
deriving DecidableEq, Repr

/-- Result of `NtCreateDirectoryObject` once probing succeeded. -/
structure CreateResult where
  status : Status
  events : List CEv
  handleWritten : Bool
deriving DecidableEq, Repr

/-- The body of `NtCreateDirectoryObject` (dirobj.c:449-487);
`createStatus` is what `ObCreateObject` returns, `insertStatus` what
`ObInsertObject` returns, and `writeFault` the exception status raised
while writing the handle back (`none` = the write succeeds). -/
def NtCreateDirectoryObject (createStatus insertStatus : Status)
    (writeFault : Option Status) : CreateResult :=
  if ntSuccess createStatus = false then
    { status := createStatus, events := [], handleWritten := false }
  else if ntSuccess insertStatus = false then
    -- insertion failed: mark temporary, then drop the local reference
    { status := insertStatus
      events := [.createObj, .insertAttempt, .markTemporary, .derefObj]
      handleWritten := false }
  else
    match writeFault with
    | none =>
      { status := insertStatus
        events := [.createObj, .insertAttempt, .derefObj, .writeHandle]
        handleWritten := true }
    | some f =>
      { status := f
        events := [.createObj, .insertAttempt, .derefObj]
        handleWritten := false }

/-! ## Reference functions written from the spec's words

These re-state §4.2's per-entry staging rule and §6's output record
layout independently of the code; the theorems below relate the code's
functions to them. -/

/-- Modelled from the spec: `entrySize = sizeof(record) + (hasName ?
nameBytes + 2 : 0) + typeNameBytes + 2` (§4.2 step 1). -/
def specEntrySize (hasName : Bool) (nameBytes typeNameBytes : Nat) : Nat :=
  sizeofODI + (if hasName then nameBytes + 2 else 0) + typeNameBytes + 2

/-- Modelled from the spec (§4.2 step 1): stage entries greedily while
`runningRequired + entrySize <= bufferLength`, stopping at the first
entry that does not fit; in single-entry mode stop right after the first
staged entry. -/
def specStage (bufLen : Nat) (single : Bool) :
    List DirEntry → Nat → List DirEntry
  | [], _ => []
  | e :: rest, running =>
    let esz := specEntrySize (!e.name.isEmpty)
      (sizeofWCHAR * e.name.length) (sizeofWCHAR * e.typeName.length)
    if running + esz ≤ bufLen then
      e :: (if single then [] else specStage bufLen single rest (running + esz))
    else []

/-- The heap chunk one delivered record contributes (§6): its name when
present followed by one wide null, then its type name followed by one
wide null. -/
def entryHeap (e : DirEntry) : List Nat :=
  (if e.name.isEmpty then [] else e.name ++ [0]) ++ e.typeName ++ [0]

/-- The packed string heap of a delivered batch (§6). -/
def heapSpec : List DirEntry → List Nat
  | [] => []
  | e :: rest => entryHeap e ++ heapSpec rest

/-- The record a delivered entry compacts to when its strings start at
wide-character offset `off` of the output buffer. -/
def recOf (e : DirEntry) (off : Nat) : OutRecord :=
  { nameLen := if e.name.isEmpty then 0 else sizeofWCHAR * e.name.length
    nameMax := if e.name.isEmpty then 0 else e.nameMax
    nameOff := if e.name.isEmpty then none else some off
    typeLen := sizeofWCHAR * e.typeName.length
    typeMax := e.typeMax
    typeOff := some (if e.name.isEmpty then off else off + (e.name.length + 1)) }

/-- The record array of a delivered batch whose string heap starts at
wide-character offset `off`: each record's descriptors point at its own
strings' positions, and the offset advances by the wide characters the
entry contributed (name-with-null when present, type-with-null). -/
def recsOf : List DirEntry → Nat → List OutRecord
  | [], _ => []
  | e :: rest, off =>
    recOf e off ::
      recsOf rest (off + (if e.name.isEmpty then 0 else e.name.length + 1) +
        (e.typeName.length + 1))

/-! ## The multi-call scan trace (for the cross-call enumeration claim)

One logical scan: a first call with `restartScan = true`, then calls with
`restartScan = false` that round-trip the written-back cursor unmodified,
stopping when *no more entries* is returned (`fuel` bounds the number of
calls, since an undersized buffer can make no progress forever). -/
def scanSteps (es : List DirEntry) (bufLen : Nat) (single : Bool) :
    Nat → Bool → Nat → List (List DirEntry) × Bool
  | 0, _, _ => ([], false)
  | fuel + 1, restart, ctx =>
    let r := queryCore es bufLen single restart ctx false
    if r.status = .noMoreEntries then ([], true)
    else
      match r.ctxOut with
      | some c =>
        let rest := scanSteps es bufLen single fuel false c
        (r.delivered :: rest.1, rest.2)
      | none => ([r.delivered], false)

/-! ## Characterizing the scan loop -/

/-- The start index of a scan: 0 on restart, else the caller's cursor. -/
def startIdx (restart : Bool) (ctx : Nat) : Nat := if restart then 0 else ctx

/-- The extra amount added to `RequiredSize` beyond the staged entries:
in single-entry mode the size of the first entry that did not fit. -/
def extraOf (bufLen : Nat) (single : Bool) (es : List DirEntry) (r0 : Nat) :
    Nat :=
  match es with
  | [] => 0
  | e :: _ =>
    if single = true ∧ bufLen < r0 + entrySize e then entrySize e else 0

/-- The scan loop's final `Status` before the more-entries override, as a
function of the first unskipped entry: success when it fits, buffer too
small when it does not fit and a single entry was asked for, otherwise
the incoming status. -/
def statusOf (bufLen : Nat) (single : Bool) (es : List DirEntry) (r0 : Nat)
    (q0 : Status) : Status :=
  match es with
  | [] => q0
  | e :: _ =>
    if r0 + entrySize e ≤ bufLen then .success
    else if single then .bufferTooSmall else q0

/-- Whether the loop exits with `ListEntry == &Directory->head`: the list
was empty, or (in multi-entry mode) every entry was staged. -/
def exOf (bufLen : Nat) (single : Bool) (es : List DirEntry) (r0 : Nat) :
    Bool :=
  es.isEmpty ||
    (!single && decide ((specStage bufLen single es r0).length = es.length))

lemma extraOf_false (bufLen : Nat) (es : List DirEntry) (r0 : Nat) :
    extraOf bufLen false es r0 = 0 := by
  cases es <;> simp [extraOf]

lemma statusOf_mono_success (bufLen : Nat) (es : List DirEntry) (r0 : Nat) :
    statusOf bufLen false es r0 .success = .success := by
  cases es with
  | nil => rfl
  | cons e rest =>
    simp only [statusOf]
    split <;> rfl

/-- `specStage` selects an initial segment of the member list. -/
lemma specStage_eq_take (bufLen : Nat) (single : Bool) :
    ∀ (es : List DirEntry) (r : Nat),
      specStage bufLen single es r =
        es.take (specStage bufLen single es r).length := by
  intro es
  induction es with
  | nil => intro r; rfl
  | cons e rest ih =>
    intro r
    simp only [specStage]
    split
    · cases single with
      | false =>
        simp only [Bool.false_eq_true, if_false, List.length_cons,
          List.take_succ_cons, List.cons.injEq, true_and]
        exact ih _
      | true => rfl
    · rfl

lemma specStage_length_le (bufLen : Nat) (single : Bool)
    (es : List DirEntry) (r : Nat) :
    (specStage bufLen single es r).length ≤ es.length := by
  conv_lhs => rw [specStage_eq_take bufLen single es r]
  simp [List.length_take_le]

/-- The spec's `entrySize` formula, instantiated at an entry's data,
agrees with the code's `EntrySize` computation. -/
lemma specEntrySize_eq (e : DirEntry) :
    specEntrySize (!e.name.isEmpty) (sizeofWCHAR * e.name.length)
      (sizeofWCHAR * e.typeName.length) = entrySize e := by
  cases h : e.name.isEmpty <;>
    simp [specEntrySize, entrySize, h, sizeofWCHAR]

lemma specStage_cons (bufLen : Nat) (single : Bool) (e : DirEntry)
    (rest : List DirEntry) (running : Nat) :
    specStage bufLen single (e :: rest) running =
      if running + entrySize e ≤ bufLen then
        e :: (if single then []
              else specStage bufLen single rest (running + entrySize e))
      else [] := by
  simp only [specStage, specEntrySize_eq]

lemma scanLoop_cons (bufLen : Nat) (single : Bool) (e : DirEntry)
    (rest : List DirEntry) (s : ScanState) :
    scanLoop bufLen single (e :: rest) s =
      if s.skip = 0 then
        if s.required + entrySize e ≤ bufLen then
          if single then
            ({ s with nextEntry := s.nextEntry + 1,
                      staged := s.staged ++ [e],
                      required := s.required + entrySize e,
                      status := .success }, false)
          else
            scanLoop bufLen single rest
              { s with nextEntry := s.nextEntry + 1,
                       staged := s.staged ++ [e],
                       required := s.required + entrySize e,
                       status := .success }
        else if single then
          ({ s with required := s.required + entrySize e,
                    status := .bufferTooSmall }, false)
        else (s, false)
      else
        scanLoop bufLen single rest
          { s with nextEntry := s.nextEntry + 1, skip := s.skip - 1 } := by
  obtain ⟨ne, sk, rq, st, q⟩ := s
  by_cases hsk : sk = 0
  · subst hsk
    by_cases hfit : rq + entrySize e ≤ bufLen <;>
      cases single <;> simp [scanLoop, hfit]
  · cases single <;> simp [scanLoop, hsk]

/-- The scan loop with no entries left to skip, in closed form. -/
lemma scanLoop_eq (bufLen : Nat) (single : Bool) :
    ∀ (es : List DirEntry) (s : ScanState), s.skip = 0 →
    scanLoop bufLen single es s =
      ({ nextEntry :=
           s.nextEntry + (specStage bufLen single es s.required).length,
         skip := 0,
         required := s.required +
           ((specStage bufLen single es s.required).map entrySize).sum +
           extraOf bufLen single es s.required,
         staged := s.staged ++ specStage bufLen single es s.required,
         status := statusOf bufLen single es s.required s.status },
       exOf bufLen single es s.required) := by
  intro es
  induction es with
  | nil =>
    intro s hs
    cases s
    simp_all [scanLoop, specStage, extraOf, statusOf, exOf]
  | cons e rest ih =>
    intro s hs
    obtain ⟨ne, sk, rq, st, q⟩ := s
    have hsk : sk = 0 := hs
    subst hsk
    rw [scanLoop_cons, specStage_cons]
    by_cases hfit : rq + entrySize e ≤ bufLen
    · have hnlt : ¬ bufLen < rq + entrySize e := Nat.not_lt.mpr hfit
      cases single with
      | true =>
        simp [extraOf, statusOf, exOf, hfit, hnlt, specStage_cons]
      | false =>
        simp only [eq_self_iff_true, if_true, Bool.false_eq_true, if_false,
          if_pos hfit]
        rw [ih { nextEntry := ne + 1, skip := 0, required := rq + entrySize e,
                 staged := st ++ [e], status := .success } rfl]
        rw [Prod.mk.injEq, ScanState.mk.injEq]
        refine ⟨⟨?_, rfl, ?_, by simp, ?_⟩, ?_⟩
        · simp only [List.length_cons]
          omega
        · rw [extraOf_false, extraOf_false]
          simp only [List.map_cons, List.sum_cons]
          omega
        · rw [statusOf_mono_success]
          simp [statusOf, hfit]
        · simp only [exOf, List.isEmpty_cons, Bool.false_or, Bool.not_false,
            Bool.true_and, List.length_cons, specStage_cons, hfit, if_true,
            Bool.false_eq_true, if_false]
          cases rest with
          | nil => simp [specStage]
          | cons e2 rest2 =>
            simp only [List.isEmpty_cons, Bool.false_or, Bool.true_and,
              List.length_cons, decide_eq_decide]
            omega
    · have hlt : bufLen < rq + entrySize e := Nat.not_le.mp hfit
      cases single with
      | true => simp [extraOf, statusOf, exOf, hfit, hlt, specStage_cons]
      | false => simp [extraOf, statusOf, exOf, hfit, hlt, specStage_cons]

/-- With `k ≤ es.length` entries to skip, the loop behaves as a skip-free
loop over the remaining entries with `NextEntry` advanced by `k`. -/
lemma scanLoop_skip_le (bufLen : Nat) (single : Bool) :
    ∀ (k : Nat) (es : List DirEntry) (s : ScanState), s.skip = k →
      k ≤ es.length →
      scanLoop bufLen single es s =
        scanLoop bufLen single (es.drop k)
          { s with nextEntry := s.nextEntry + k, skip := 0 } := by
  intro k
  induction k with
  | zero =>
    intro es s hs _
    obtain ⟨ne, sk, rq, st, q⟩ := s
    have hsk : sk = 0 := hs
    subst hsk
    rfl
  | succ k ih =>
    intro es s hs hk
    cases es with
    | nil => simp at hk
    | cons e rest =>
      obtain ⟨ne, sk, rq, st, q⟩ := s
      have hsk : sk = k + 1 := hs
      subst hsk
      rw [scanLoop_cons, if_neg (by exact Nat.succ_ne_zero k)]
      rw [ih rest { nextEntry := ne + 1, skip := k + 1 - 1, required := rq,
                    staged := st, status := q } (by simp)
            (by simp only [List.length_cons] at hk; omega)]
      have h1 : ne + 1 + k = ne + (k + 1) := by omega
      simp [h1]

/-- With at least as many entries to skip as the list holds, the loop
only counts the entries and exhausts the list. -/
lemma scanLoop_skip_ge (bufLen : Nat) (single : Bool) :
    ∀ (es : List DirEntry) (s : ScanState), es.length ≤ s.skip →
      scanLoop bufLen single es s =
        ({ s with nextEntry := s.nextEntry + es.length,
                  skip := s.skip - es.length }, true) := by
  intro es
  induction es with
  | nil =>
    intro s _
    rfl
  | cons e rest ih =>
    intro s h
    have hsk : ¬ s.skip = 0 := by
      simp only [List.length_cons] at h
      omega
    rw [scanLoop_cons, if_neg hsk]
    rw [ih { s with nextEntry := s.nextEntry + 1, skip := s.skip - 1 }
          (by simp only [List.length_cons] at h ⊢; omega)]
    have h1 : s.nextEntry + 1 + rest.length = s.nextEntry + (rest.length + 1) := by
      omega
    have h2 : s.skip - 1 - rest.length = s.skip - (rest.length + 1) := by
      omega
    simp [h1, h2]

/-- The scan phase in closed form when the start index lies within the
member list. -/
lemma scanPhase_eq (es : List DirEntry) (bufLen : Nat)
    (single restart : Bool) (ctx : Nat)
    (hk : startIdx restart ctx ≤ es.length) :
    scanPhase es bufLen single restart ctx =
      ({ nextEntry := startIdx restart ctx +
           (specStage bufLen single (es.drop (startIdx restart ctx))
             sizeofODI).length,
         skip := 0,
         required := sizeofODI +
           ((specStage bufLen single (es.drop (startIdx restart ctx))
             sizeofODI).map entrySize).sum +
           extraOf bufLen single (es.drop (startIdx restart ctx)) sizeofODI,
         staged := specStage bufLen single (es.drop (startIdx restart ctx))
           sizeofODI,
         status := statusOf bufLen single (es.drop (startIdx restart ctx))
           sizeofODI .noMoreEntries },
       exOf bufLen single (es.drop (startIdx restart ctx)) sizeofODI) := by
  unfold scanPhase
  rw [scanLoop_skip_le bufLen single (startIdx restart ctx) es
        (initState restart ctx) (by cases restart <;> rfl) hk]
  rw [scanLoop_eq bufLen single _ _ rfl]
  simp [initState]

/-- The scan phase in closed form when the start index is at or past the
end of the member list: nothing is examined, nothing staged. -/
lemma scanPhase_ge (es : List DirEntry) (bufLen : Nat)
    (single restart : Bool) (ctx : Nat)
    (hk : es.length ≤ startIdx restart ctx) :
    scanPhase es bufLen single restart ctx =
      ({ nextEntry := es.length,
         skip := startIdx restart ctx - es.length,
         required := sizeofODI,
         staged := [],
         status := .noMoreEntries }, true) := by
  unfold scanPhase
  rw [scanLoop_skip_ge bufLen single es (initState restart ctx) hk]
  simp [initState, startIdx]

/-- The compaction loop in closed form: it returns the positional record
array, the packed string heap, and `CopyBytes` grown by the heap's size
in bytes. -/
lemma compactLoop_eq : ∀ (es : List DirEntry) (off cb : Nat),
    compactLoop es off cb =
      (recsOf es off, heapSpec es, cb + sizeofWCHAR * (heapSpec es).length) := by
  intro es
  induction es with
  | nil =>
    intro off cb
    simp [compactLoop, recsOf, heapSpec]
  | cons e rest ih =>
    intro off cb
    cases hne : e.name.isEmpty with
    | true =>
      simp only [compactLoop, hne, Bool.not_true, Bool.false_eq_true,
        if_false, ih, Prod.mk.injEq]
      refine ⟨?_, ?_, ?_⟩
      · simp [recsOf, recOf, hne]
      · simp [heapSpec, entryHeap, hne]
      · simp only [heapSpec, entryHeap, hne, if_true, List.nil_append,
          List.length_append, List.length_cons, List.length_nil,
          sizeofWCHAR]
        omega
    | false =>
      simp only [compactLoop, hne, Bool.not_false, if_true, ih,
        Prod.mk.injEq]
      refine ⟨?_, ?_, ?_⟩
      · simp [recsOf, recOf, hne]
      · simp [heapSpec, entryHeap, hne]
      · simp only [heapSpec, entryHeap, hne, Bool.false_eq_true, if_false,
          List.length_append, List.length_cons, List.length_nil,
          List.append_assoc, sizeofWCHAR]
        omega

/-- A string descriptor offset `o` (in wide characters from the start of
the output buffer) points at the characters `chars` followed by one wide
null inside a heap that starts at offset `base`. -/
def ptrIntoHeap (base : Nat) (heap : List Nat) (o : Nat)
    (chars : List Nat) : Prop :=
  base ≤ o ∧ o - base + (chars.length + 1) ≤ heap.length ∧
    (heap.drop (o - base)).take (chars.length + 1) = chars ++ [0]

/-- A delivered record correctly describes its entry relative to the
string heap placed at offset `base` of the output buffer: the `Length`
fields carry the strings' byte lengths, an absent name leaves a NULL
descriptor, and each present descriptor points at its own
null-terminated characters inside the heap. -/
def recMatches (base : Nat) (heap : List Nat) (e : DirEntry)
    (r : OutRecord) : Prop :=
  r.nameLen = (if e.name.isEmpty then 0 else sizeofWCHAR * e.name.length) ∧
  r.typeLen = sizeofWCHAR * e.typeName.length ∧
  (e.name.isEmpty = true → r.nameOff = none) ∧
  (e.name.isEmpty = false →
    ∃ o, r.nameOff = some o ∧ ptrIntoHeap base heap o e.name) ∧
  (∃ o, r.typeOff = some o ∧ ptrIntoHeap base heap o e.typeName)

lemma recsOf_matches : ∀ (es : List DirEntry) (base : Nat) (pre : List Nat),
    List.Forall₂ (recMatches base (pre ++ heapSpec es)) es
      (recsOf es (base + pre.length)) := by
  intro es
  induction es with
  | nil => intro base pre; exact List.Forall₂.nil
  | cons e rest ih =>
    intro base pre
    simp only [heapSpec, recsOf]
    refine List.Forall₂.cons ?_ ?_
    · cases hne : e.name.isEmpty with
      | true =>
        have hnil : e.name = [] := List.isEmpty_iff.mp hne
        refine ⟨?_, ?_, ?_, ?_, ?_⟩
        · simp [recOf, hne]
        · simp [recOf]
        · intro _
          simp [recOf, hne]
        · intro hc
          rw [hne] at hc
          cases hc
        · refine ⟨base + pre.length, by simp [recOf, hne], ?_, ?_, ?_⟩
          · omega
          · simp only [Nat.add_sub_cancel_left, List.length_append]
            simp [entryHeap, hnil]
          · rw [Nat.add_sub_cancel_left, List.drop_left]
            have hE : entryHeap e ++ heapSpec rest =
                (e.typeName ++ [0]) ++ heapSpec rest := by
              simp [entryHeap, hnil]
            rw [hE, List.take_left' (by simp)]
      | false =>
        refine ⟨?_, ?_, ?_, ?_, ?_⟩
        · simp [recOf, hne]
        · simp [recOf]
        · intro hc
          rw [hne] at hc
          cases hc
        · intro _
          refine ⟨base + pre.length, by simp [recOf, hne], ?_, ?_, ?_⟩
          · omega
          · simp only [Nat.add_sub_cancel_left, List.length_append]
            simp [entryHeap, hne]
            omega
          · rw [Nat.add_sub_cancel_left, List.drop_left]
            have hE : entryHeap e ++ heapSpec rest =
                (e.name ++ [0]) ++ ((e.typeName ++ [0]) ++ heapSpec rest) := by
              simp [entryHeap, hne]
            rw [hE, List.take_left' (by simp)]
        · refine ⟨base + pre.length + (e.name.length + 1),
            by simp [recOf, hne], ?_, ?_, ?_⟩
          · omega
          · have harith : base + pre.length + (e.name.length + 1) - base =
                pre.length + (e.name.length + 1) := by omega
            rw [harith]
            simp [entryHeap, hne]
            omega
          · have harith : base + pre.length + (e.name.length + 1) - base =
                pre.length + (e.name.length + 1) := by omega
            rw [harith]
            have hsplit : pre ++ (entryHeap e ++ heapSpec rest) =
                (pre ++ (e.name ++ [0])) ++
                  ((e.typeName ++ [0]) ++ heapSpec rest) := by
              simp [entryHeap, hne]
            rw [hsplit, List.drop_left' (by simp), List.take_left' (by simp)]
    · have hlen : (pre ++ entryHeap e).length =
          pre.length + ((if e.name.isEmpty then 0 else e.name.length + 1) +
            (e.typeName.length + 1)) := by
        cases hne : e.name.isEmpty with
        | true =>
          have hnil : e.name = [] := List.isEmpty_iff.mp hne
          simp [entryHeap, hnil]
        | false =>
          simp [entryHeap, hne]
          omega
      have hrec := ih base (pre ++ entryHeap e)
      rw [List.append_assoc, hlen] at hrec
      have harg : base + (pre.length +
          ((if e.name.isEmpty then 0 else e.name.length + 1) +
            (e.typeName.length + 1))) =
          base + pre.length +
            (if e.name.isEmpty then 0 else e.name.length + 1) +
            (e.typeName.length + 1) := by omega
      rw [harg] at hrec
      exact hrec

/-! ## Helper lemmas for the claim theorems -/

lemma specStage_single_len (bufLen : Nat) :
    ∀ (es : List DirEntry) (r : Nat),
      (specStage bufLen true es r).length ≤ 1 := by
  intro es r
  cases es with
  | nil => simp [specStage]
  | cons e rest =>
    rw [specStage_cons]
    split <;> simp

/-- Greedy staging respects the budget: whenever at least one entry was
staged, the running total stays within `bufLen`. -/
lemma specStage_sum_le (bufLen : Nat) (single : Bool) :
    ∀ (es : List DirEntry) (r : Nat),
      specStage bufLen single es r ≠ [] →
      r + ((specStage bufLen single es r).map entrySize).sum ≤ bufLen := by
  intro es
  induction es with
  | nil => intro r h; simp [specStage] at h
  | cons e rest ih =>
    intro r h
    rw [specStage_cons] at h ⊢
    by_cases hfit : r + entrySize e ≤ bufLen
    · rw [if_pos hfit]
      cases single with
      | true => simpa using hfit
      | false =>
        simp only [Bool.false_eq_true, if_false, List.map_cons,
          List.sum_cons]
        by_cases hrest : specStage bufLen false rest (r + entrySize e) = []
        · simp [hrest]
          omega
        · have := ih (r + entrySize e) hrest
          omega
    · rw [if_neg hfit] at h
      cases h rfl

/-- An entry's staged size splits into the fixed record plus its string
heap contribution in bytes. -/
lemma entrySize_heap (e : DirEntry) :
    entrySize e = sizeofODI + sizeofWCHAR * (entryHeap e).length := by
  cases hne : e.name.isEmpty with
  | true =>
    have hnil : e.name = [] := List.isEmpty_iff.mp hne
    simp [entrySize, entryHeap, hnil, sizeofWCHAR]
    omega
  | false =>
    simp [entrySize, entryHeap, hne, sizeofWCHAR]
    ring

/-- Total staged size = one record per entry plus the packed heap. -/
lemma sum_entrySize_heap :
    ∀ (es : List DirEntry),
      (es.map entrySize).sum =
        sizeofODI * es.length + sizeofWCHAR * (heapSpec es).length := by
  intro es
  induction es with
  | nil => simp [heapSpec]
  | cons e rest ih =>
    simp only [List.map_cons, List.sum_cons, ih, heapSpec,
      List.length_append, List.length_cons, entrySize_heap e]
    ring

lemma recsOf_length : ∀ (es : List DirEntry) (off : Nat),
    (recsOf es off).length = es.length := by
  intro es
  induction es with
  | nil => intro off; rfl
  | cons e rest ih =>
    intro off
    simp [recsOf, ih]

lemma scanEvents_mem (bufLen : Nat) (single : Bool) :
    ∀ (es : List DirEntry) (skip required : Nat) (e : QEv),
      e ∈ scanEvents bufLen single es skip required →
      e = QEv.readLinkage ∨ e = QEv.stageScratch := by
  intro es
  induction es with
  | nil => intro skip required e h; simp [scanEvents] at h
  | cons e0 rest ih =>
    intro skip required e h
    by_cases hsk : skip = 0
    · by_cases hfit : required + entrySize e0 ≤ bufLen
      · cases single with
        | true =>
          simp [scanEvents, hsk, hfit] at h
          rcases h with h | h
          · exact Or.inl h
          · exact Or.inr h
        | false =>
          simp only [scanEvents, hsk, if_true, hfit, if_false,
            Bool.false_eq_true, List.mem_cons] at h
          rcases h with h | h | h
          · exact Or.inl h
          · exact Or.inr h
          · exact ih 0 (required + entrySize e0) e h
      · simp [scanEvents, hsk, hfit] at h
        exact Or.inl h
    · simp only [scanEvents, hsk, if_false, List.mem_cons] at h
      rcases h with h | h
      · exact Or.inl h
      · exact ih (skip - 1) required e h

/-- One call, sliced: with the start index inside the member list, the
call delivers the greedy batch starting at the cursor; *no more entries*
is returned exactly when the cursor already sits at the end; and whenever
the status is not *no more entries* the cursor written back is the start
index plus the number of entries delivered. -/
lemma queryCore_behavior (es : List DirEntry) (bufLen : Nat)
    (single restart : Bool) (ctx : Nat) (retLenReq : Bool)
    (hk : startIdx restart ctx ≤ es.length) :
    (queryCore es bufLen single restart ctx retLenReq).delivered =
      specStage bufLen single (es.drop (startIdx restart ctx)) sizeofODI ∧
    ((queryCore es bufLen single restart ctx retLenReq).status =
        .noMoreEntries ↔ es.length ≤ startIdx restart ctx) ∧
    ((queryCore es bufLen single restart ctx retLenReq).status ≠
        .noMoreEntries →
      (queryCore es bufLen single restart ctx retLenReq).ctxOut =
        some (startIdx restart ctx +
          (specStage bufLen single (es.drop (startIdx restart ctx))
            sizeofODI).length)) := by
  have hq := scanPhase_eq es bufLen single restart ctx hk
  rcases hdrop : es.drop (startIdx restart ctx) with _ | ⟨e, rest⟩
  · have hlen : es.length ≤ startIdx restart ctx :=
      List.drop_eq_nil_iff.mp hdrop
    rw [hdrop] at hq
    refine ⟨?_, ?_, ?_⟩
    · simp [queryCore, hq, specStage]
    · simp [queryCore, hq, specStage, statusOf, exOf, hlen]
    · intro hst
      exfalso
      apply hst
      simp [queryCore, hq, statusOf, exOf]
  · have hlen : ¬ es.length ≤ startIdx restart ctx := by
      intro hle
      rw [List.drop_eq_nil_iff.mpr hle] at hdrop
      cases hdrop
    rw [hdrop] at hq
    have hstansme :
        (queryCore es bufLen single restart ctx retLenReq).status ≠
          .noMoreEntries ∧
        (ntSuccess (queryCore es bufLen single restart ctx
            retLenReq).status || single) = true := by
      by_cases hfit : sizeofODI + entrySize e ≤ bufLen
      · have hst : statusOf bufLen single (e :: rest) sizeofODI
            .noMoreEntries = .success := by
          simp [statusOf, hfit]
        cases hov : (!single &&
            !(exOf bufLen single (e :: rest) sizeofODI)) <;>
          simp [queryCore, hq, hst, hov, ntSuccess]
      · have hst : statusOf bufLen single (e :: rest) sizeofODI
            .noMoreEntries =
            (if single then .bufferTooSmall else .noMoreEntries) := by
          simp [statusOf, hfit]
        cases hsin : single with
        | true =>
          subst hsin
          have hov : (!(true : Bool) && !(exOf bufLen true (e :: rest)
              sizeofODI)) = false := by simp
          simp [queryCore, hq, hst, hov, ntSuccess]
        | false =>
          subst hsin
          have hex : exOf bufLen false (e :: rest) sizeofODI = false := by
            simp only [exOf, List.isEmpty_cons, Bool.false_or,
              Bool.not_false, Bool.true_and, specStage_cons, hfit,
              if_false, List.length_nil, List.length_cons]
            simp
          simp [queryCore, hq, hst, hex, ntSuccess]
    refine ⟨by simp [queryCore, hq], ?_, ?_⟩
    · simp [hstansme.1, hlen]
    · intro _
      by_cases hfit : sizeofODI + entrySize e ≤ bufLen
      · have hst : statusOf bufLen single (e :: rest) sizeofODI
            .noMoreEntries = .success := by
          simp [statusOf, hfit]
        cases hov : (!single &&
            !(exOf bufLen single (e :: rest) sizeofODI)) <;>
          simp [queryCore, hq, hst, hov, ntSuccess]
      · cases hsin : single with
        | true =>
          subst hsin
          simp [queryCore, hq, statusOf, hfit, ntSuccess]
        | false =>
          subst hsin
          have hex : exOf bufLen false (e :: rest) sizeofODI = false := by
            simp only [exOf, List.isEmpty_cons, Bool.false_or,
              Bool.not_false, Bool.true_and, specStage_cons, hfit,
              if_false, List.length_nil, List.length_cons]
            simp
          simp [queryCore, hq, statusOf, hfit, hex, ntSuccess]

/-- Across a whole scan trace (first call `restartScan = true`, then
cursor round-tripping), the concatenation of the delivered batches is
always an initial run of the member list, and it is the whole list when
the trace ended with *no more entries*. -/
lemma scanSteps_spec (es : List DirEntry) (bufLen : Nat) (single : Bool) :
    ∀ (fuel : Nat) (restart : Bool) (ctx : Nat),
      startIdx restart ctx ≤ es.length →
      ∃ m, startIdx restart ctx ≤ m ∧ m ≤ es.length ∧
        es.take (startIdx restart ctx) ++
          (scanSteps es bufLen single fuel restart ctx).1.flatten =
          es.take m ∧
        ((scanSteps es bufLen single fuel restart ctx).2 = true →
          m = es.length) := by
  intro fuel
  induction fuel with
  | zero =>
    intro restart ctx hk
    exact ⟨startIdx restart ctx, le_refl _, hk, by simp [scanSteps],
      by simp [scanSteps]⟩
  | succ fuel ih =>
    intro restart ctx hk
    obtain ⟨hdel, hnme, hctx⟩ :=
      queryCore_behavior es bufLen single restart ctx false hk
    by_cases hst :
        (queryCore es bufLen single restart ctx false).status =
          .noMoreEntries
    · have hlen : es.length ≤ startIdx restart ctx := hnme.mp hst
      have hmeq : startIdx restart ctx = es.length := le_antisymm hk hlen
      refine ⟨es.length, by omega, le_refl _, ?_, fun _ => rfl⟩
      simp [scanSteps, hst, hmeq]
    · have hctx2 := hctx hst
      have hlenD := specStage_length_le bufLen single
        (es.drop (startIdx restart ctx)) sizeofODI
      rw [List.length_drop] at hlenD
      have hkn_le : startIdx restart ctx +
          (specStage bufLen single (es.drop (startIdx restart ctx))
            sizeofODI).length ≤ es.length := by omega
      obtain ⟨m, hm1, hm2, hm3, hm4⟩ := ih false
        (startIdx restart ctx +
          (specStage bufLen single (es.drop (startIdx restart ctx))
            sizeofODI).length) hkn_le
      simp only [startIdx, Bool.false_eq_true, if_false] at hm1 hm3
      have hunf : scanSteps es bufLen single (fuel + 1) restart ctx =
          ((queryCore es bufLen single restart ctx false).delivered ::
            (scanSteps es bufLen single fuel false
              (startIdx restart ctx +
                (specStage bufLen single (es.drop (startIdx restart ctx))
                  sizeofODI).length)).1,
           (scanSteps es bufLen single fuel false
              (startIdx restart ctx +
                (specStage bufLen single (es.drop (startIdx restart ctx))
                  sizeofODI).length)).2) := by
        simp [scanSteps, hst, hctx2]
      have hstep : es.take (startIdx restart ctx) ++
          (queryCore es bufLen single restart ctx false).delivered =
          es.take (startIdx restart ctx +
            (specStage bufLen single (es.drop (startIdx restart ctx))
              sizeofODI).length) := by
        rw [hdel, List.take_add]
        congr 1
        exact specStage_eq_take bufLen single _ sizeofODI
      refine ⟨m, by simp only [startIdx] at *; omega, hm2, ?_, ?_⟩
      · rw [hunf]
        simp only [List.flatten_cons, ← List.append_assoc, hstep]
        simp only [startIdx] at *
        exact hm3
      · rw [hunf]
        exact hm4

/-- Events that touch caller-visible (potentially pageable) memory. -/
def isCallerWrite : QEv → Bool
  | .copyToCaller _ => true
  | .writeCursor _ => true
  | .writeRetLen _ => true
  | _ => false

lemma stageEvents_mem (r : QueryResult) (e : QEv)
    (h : e ∈ stageEvents r) : e = QEv.stageScratch := by
  unfold stageEvents at h
  split at h
  · obtain ⟨_, _, he⟩ := List.mem_map.mp h
    exact he.symm
  · cases h

lemma deliverEvents_mem (single retLenReq : Bool) (r : QueryResult)
    (e : QEv) (h : e ∈ deliverEvents single retLenReq r) :
    isCallerWrite e = true := by
  unfold deliverEvents at h
  split at h
  · simp only [List.mem_append] at h
    rcases h with (h | h) | h
    · split at h
      · rw [List.mem_singleton.mp h]; rfl
      · cases h
    · rw [List.mem_singleton.mp h]; rfl
    · split at h
      · rw [List.mem_singleton.mp h]; rfl
      · cases h
  · cases h

/-- A concrete member used by witnesses: name "A", type name "T"
(one wide character each), so its staged size is 16 + 4 + 4 = 24 bytes
and a query needs 40 bytes to deliver it. -/
def sampleEntry : DirEntry :=
  { name := [65], nameMax := 4, typeName := [84], typeMax := 4 }

/-! ## The claims -/

/-- C1: the code contradicts this claim (and the spec's release-before-
return rule): on the path where the handle resolves successfully but the
scratch-buffer allocation fails, `NtQueryDirectoryObject` returns
*insufficient resources* having acquired one directory reference and
released none — the `ObDereferenceObject` at dirobj.c:358 sits inside the
`TemporaryBuffer != NULL` branch and is unreachable on this path, so the
reference leaks. -/
theorem C1_alloc_failure_leaks_reference :
    (NtQueryDirectoryObject true false [] 64 false true 0 false).1 =
      .insufficientResources ∧
    (NtQueryDirectoryObject true false [] 64 false true 0 false).2.count
      QEv.refAcquire = 1 ∧
    (NtQueryDirectoryObject true false [] 64 false true 0 false).2.count
      QEv.refRelease = 0 := by
  decide

/-- C2 counterexample: on an empty directory with `restartScan = true`,
`returnSingleEntry = false` and a `ReturnLength` pointer supplied, the
call returns *no more entries* but never writes `ReturnLength` (the
deliver block at dirobj.c:360-381 is guarded by
`NT_SUCCESS(Status) || ReturnSingleEntry`, and
`NT_SUCCESS(STATUS_NO_MORE_ENTRIES)` is false), refuting the claim that
the terminator size is written for both values of `returnSingleEntry`. -/
theorem C2_counterexample :
    (queryCore [] 64 false true 0 true).status = .noMoreEntries ∧
    (queryCore [] 64 false true 0 true).retLenOut = none := by
  decide

/-- C2 (amended): `QueryDirectory` on an empty directory with
`restartScan = true` returns *no more entries* for both values of
`returnSingleEntry` and delivers nothing; `returnLength` is written with
the fixed terminator size `sizeof(OBJECT_DIRECTORY_INFORMATION)` (and the
cursor with 0) only when `returnSingleEntry = true` — with
`returnSingleEntry = false`, neither `returnLength` nor the cursor is
written at all. -/
theorem C2_empty_directory (single : Bool) (bufLen ctx : Nat)
    (retLenReq : Bool) :
    (queryCore [] bufLen single true ctx retLenReq).status =
      .noMoreEntries ∧
    (queryCore [] bufLen single true ctx retLenReq).delivered = [] ∧
    (queryCore [] bufLen single true ctx retLenReq).copyBytes = 0 ∧
    (queryCore [] bufLen single true ctx retLenReq).retLenOut =
      (if single && retLenReq then some sizeofODI else none) ∧
    (queryCore [] bufLen single true ctx retLenReq).ctxOut =
      (if single then some 0 else none) := by
  cases single <;> cases retLenReq <;>
    simp [queryCore, scanPhase, initState, scanLoop, ntSuccess]

/-- C9: in `NtCreateDirectoryObject`, once `ObCreateObject` succeeded,
exactly one local reference is dropped after the insertion attempt; when
insertion fails the object is marked temporary before that drop (the
events are exactly create, insert, markTemporary, deref in this order);
when insertion succeeds no markTemporary happens; and the handle reaches
the caller only when insertion succeeded. -/
theorem C9_create_failure_path (createStatus insertStatus : Status)
    (writeFault : Option Status)
    (hc : ntSuccess createStatus = true) :
    (NtCreateDirectoryObject createStatus insertStatus
      writeFault).events.count CEv.derefObj = 1 ∧
    (ntSuccess insertStatus = false →
      (NtCreateDirectoryObject createStatus insertStatus
        writeFault).events =
        [.createObj, .insertAttempt, .markTemporary, .derefObj]) ∧
    (ntSuccess insertStatus = true →
      CEv.markTemporary ∉
        (NtCreateDirectoryObject createStatus insertStatus
          writeFault).events) ∧
    ((NtCreateDirectoryObject createStatus insertStatus
        writeFault).handleWritten = true →
      ntSuccess insertStatus = true) := by
  cases hi : ntSuccess insertStatus <;> cases writeFault <;>
    simp [NtCreateDirectoryObject, hc, hi, List.count_cons]

/-- C9 witness: a concrete instantiation (creation succeeds, insertion
fails with a name collision, no write fault). -/
theorem C9_create_failure_path_witness :
    ntSuccess .success = true ∧
    ((NtCreateDirectoryObject .success .objectNameCollision
        none).events.count CEv.derefObj = 1 ∧
    (ntSuccess .objectNameCollision = false →
      (NtCreateDirectoryObject .success .objectNameCollision
        none).events =
        [.createObj, .insertAttempt, .markTemporary, .derefObj]) ∧
    (ntSuccess .objectNameCollision = true →
      CEv.markTemporary ∉
        (NtCreateDirectoryObject .success .objectNameCollision
          none).events) ∧
    ((NtCreateDirectoryObject .success .objectNameCollision
        none).handleWritten = true →
      ntSuccess .objectNameCollision = true)) :=
  ⟨rfl, C9_create_failure_path .success .objectNameCollision none rfl⟩

/-- C6: on a call that reaches the critical section (handle resolved,
scratch buffer allocated), the event trace decomposes as the fixed
prelude, a critical section containing only list-linkage reads and
scratch-buffer staging (in particular no caller-visible write), the lock
release followed by the reference release, and only then the
caller-visible writes (and the final scratch free). -/
theorem C6_writes_after_lock_release (es : List DirEntry) (bufLen : Nat)
    (single restart : Bool) (ctx : Nat) (retLenReq : Bool) :
    ∃ crit post,
      (NtQueryDirectoryObject true true es bufLen single restart ctx
        retLenReq).2 =
        [QEv.refAcquire, QEv.scratchAlloc, QEv.lockAcquire] ++ crit ++
          [QEv.lockRelease, QEv.refRelease] ++ post ∧
      (∀ e ∈ crit, e = QEv.readLinkage ∨ e = QEv.stageScratch) ∧
      (∀ e ∈ crit, isCallerWrite e = false) ∧
      (∀ e ∈ post, isCallerWrite e = true ∨ e = QEv.scratchFree) := by
  refine ⟨scanEvents bufLen single es (if restart then 0 else ctx)
      sizeofODI ++
      stageEvents (queryCore es bufLen single restart ctx retLenReq),
    deliverEvents single retLenReq
      (queryCore es bufLen single restart ctx retLenReq) ++
      [QEv.scratchFree], ?_, ?_, ?_, ?_⟩
  · simp [NtQueryDirectoryObject, List.append_assoc]
  · intro e he
    rcases List.mem_append.mp he with h | h
    · exact scanEvents_mem bufLen single es _ _ e h
    · exact Or.inr (stageEvents_mem _ e h)
  · intro e he
    rcases List.mem_append.mp he with h | h
    · rcases scanEvents_mem bufLen single es _ _ e h with h1 | h1 <;>
        rw [h1] <;> rfl
    · rw [stageEvents_mem _ e h]
      rfl
  · intro e he
    rcases List.mem_append.mp he with h | h
    · exact Or.inl (deliverEvents_mem single retLenReq _ e h)
    · exact Or.inr (List.mem_singleton.mp h)

/-- C7: with the scan starting at the head (`restartScan = true`), the
set of staged entries is exactly the spec's greedy rule — stage an entry
iff `runningRequired + entrySize ≤ bufferLength` with `runningRequired`
starting at `sizeof(record)`, stopping at the first entry that does not
fit — single-entry mode stages at most one entry, the loop status is
*success* exactly when something was staged, and (except on the
single-mode buffer-too-small path) the final `RequiredSize` is the
terminator record plus the staged entries' sizes. -/
theorem C7_staging_rule (es : List DirEntry) (bufLen : Nat)
    (single : Bool) :
    (scanPhase es bufLen single true 0).1.staged =
      specStage bufLen single es sizeofODI ∧
    (single = true →
      (scanPhase es bufLen single true 0).1.staged.length ≤ 1) ∧
    ((scanPhase es bufLen single true 0).1.status = .success ↔
      (scanPhase es bufLen single true 0).1.staged ≠ []) ∧
    ((scanPhase es bufLen single true 0).1.status ≠ .bufferTooSmall →
      (scanPhase es bufLen single true 0).1.required =
        sizeofODI +
          (((scanPhase es bufLen single true 0).1.staged).map
            entrySize).sum) := by
  have hq := scanPhase_eq es bufLen single true 0 (by simp [startIdx])
  simp only [startIdx, if_pos rfl, List.drop_zero] at hq
  rw [hq]
  refine ⟨rfl, ?_, ?_, ?_⟩
  · intro hs
    subst hs
    exact specStage_single_len bufLen es sizeofODI
  · cases es with
    | nil => simp [specStage, statusOf]
    | cons e rest =>
      by_cases hfit : sizeofODI + entrySize e ≤ bufLen
      · simp [statusOf, hfit, specStage_cons]
      · cases single <;> simp [statusOf, hfit, specStage_cons]
  · intro hst
    cases es with
    | nil => simp [extraOf]
    | cons e rest =>
      by_cases hfit : sizeofODI + entrySize e ≤ bufLen
      · simp [extraOf, Nat.not_lt.mpr hfit]
      · cases hsin : single with
        | true =>
          exfalso
          apply hst
          simp only [statusOf, hfit, if_false, hsin, if_true]
          simp [hfit]
        | false => simp [extraOf]

/-- C3: across one logical scan of an unmutated directory — first call
with `restartScan = true`, subsequent calls with `restartScan = false`
round-tripping the written-back cursor, any number of calls, either
single- or multi-entry mode — the concatenation of the delivered batches
is always an initial run of the member list (so no entry is delivered
twice and none is skipped over), and when the scan has terminated with
*no more entries* the concatenation is exactly the member list: every
member delivered exactly once. -/
theorem C3_scan_delivers_each_member_once (es : List DirEntry)
    (bufLen : Nat) (single : Bool) (fuel : Nat) :
    (∃ t, (scanSteps es bufLen single fuel true 0).1.flatten ++ t = es) ∧
    ((scanSteps es bufLen single fuel true 0).2 = true →
      (scanSteps es bufLen single fuel true 0).1.flatten = es) := by
  obtain ⟨m, _, hm2, hm3, hm4⟩ := scanSteps_spec es bufLen single fuel
    true 0 (by simp [startIdx])
  have h0 : startIdx true 0 = 0 := rfl
  rw [h0] at hm3
  simp only [List.take_zero, List.nil_append] at hm3
  constructor
  · exact ⟨es.drop m, by rw [hm3]; exact List.take_append_drop m es⟩
  · intro hfin
    rw [hm3, hm4 hfin]
    exact List.take_length es

/-- C4: a single-entry query (`returnSingleEntry = true`,
`restartScan = false`) whose first unconsumed entry does not fit in
`bufferLength` returns *buffer too small*, writes the cursor back
unchanged (the entry stays the resume point), delivers nothing, and
writes `returnLength` (when supplied) with exactly the bytes needed for
that entry — terminator record plus the entry's size — so that any retry
with a buffer at least that large succeeds, delivers exactly that entry
and advances the cursor by one. -/
theorem C4_single_entry_too_small (es : List DirEntry) (e : DirEntry)
    (rest : List DirEntry) (bufLen k : Nat) (retLenReq : Bool)
    (hdrop : es.drop k = e :: rest)
    (hsmall : bufLen < sizeofODI + entrySize e) :
    (queryCore es bufLen true false k retLenReq).status =
      .bufferTooSmall ∧
    (queryCore es bufLen true false k retLenReq).ctxOut = some k ∧
    (queryCore es bufLen true false k retLenReq).delivered = [] ∧
    (queryCore es bufLen true false k retLenReq).copyBytes = 0 ∧
    (queryCore es bufLen true false k retLenReq).retLenOut =
      (if retLenReq then some (sizeofODI + entrySize e) else none) ∧
    (∀ bufLen2, sizeofODI + entrySize e ≤ bufLen2 →
      (queryCore es bufLen2 true false k retLenReq).status = .success ∧
      (queryCore es bufLen2 true false k retLenReq).delivered = [e] ∧
      (queryCore es bufLen2 true false k retLenReq).ctxOut =
        some (k + 1)) := by
  have hk : startIdx false k ≤ es.length := by
    simp only [startIdx, Bool.false_eq_true, if_false]
    by_contra hgt
    rw [List.drop_eq_nil_iff.mpr (by omega)] at hdrop
    cases hdrop
  have hq := scanPhase_eq es bufLen true false k hk
  simp only [startIdx, Bool.false_eq_true, if_false] at hq
  rw [hdrop] at hq
  have hfit : ¬ (sizeofODI + entrySize e ≤ bufLen) := Nat.not_le.mpr hsmall
  have hD : specStage bufLen true (e :: rest) sizeofODI = [] := by
    rw [specStage_cons, if_neg hfit]
  have hex : extraOf bufLen true (e :: rest) sizeofODI = entrySize e := by
    simp [extraOf, hsmall]
  have hst : statusOf bufLen true (e :: rest) sizeofODI .noMoreEntries =
      .bufferTooSmall := by
    simp [statusOf, hfit]
  rw [hD, hst, hex] at hq
  refine ⟨?_, ?_, ?_, ?_, ?_, ?_⟩
  · simp [queryCore, hq]
  · simp [queryCore, hq, ntSuccess]
  · simp [queryCore, hq]
  · simp [queryCore, hq, ntSuccess]
  · cases retLenReq <;> simp [queryCore, hq, ntSuccess]
  · intro bufLen2 h2
    have hq2 := scanPhase_eq es bufLen2 true false k hk
    simp only [startIdx, Bool.false_eq_true, if_false] at hq2
    rw [hdrop] at hq2
    have hD2 : specStage bufLen2 true (e :: rest) sizeofODI = [e] := by
      rw [specStage_cons, if_pos h2]
      simp
    have hst2 : statusOf bufLen2 true (e :: rest) sizeofODI
        .noMoreEntries = .success := by
      simp [statusOf, h2]
    have hex2 : extraOf bufLen2 true (e :: rest) sizeofODI = 0 := by
      simp [extraOf, Nat.not_lt.mpr h2]
    rw [hD2, hst2, hex2] at hq2
    refine ⟨?_, ?_, ?_⟩
    · simp [queryCore, hq2]
    · simp [queryCore, hq2]
    · simp [queryCore, hq2, ntSuccess]

/-- C4 witness: one member whose record needs 40 bytes, queried with a
16-byte buffer at cursor 0. -/
theorem C4_single_entry_too_small_witness :
    ([sampleEntry].drop 0 = sampleEntry :: []) ∧
    (16 < sizeofODI + entrySize sampleEntry) ∧
    ((queryCore [sampleEntry] 16 true false 0 true).status =
      .bufferTooSmall ∧
    (queryCore [sampleEntry] 16 true false 0 true).ctxOut = some 0 ∧
    (queryCore [sampleEntry] 16 true false 0 true).delivered = [] ∧
    (queryCore [sampleEntry] 16 true false 0 true).copyBytes = 0 ∧
    (queryCore [sampleEntry] 16 true false 0 true).retLenOut =
      (if true then some (sizeofODI + entrySize sampleEntry) else none) ∧
    (∀ bufLen2, sizeofODI + entrySize sampleEntry ≤ bufLen2 →
      (queryCore [sampleEntry] bufLen2 true false 0 true).status =
        .success ∧
      (queryCore [sampleEntry] bufLen2 true false 0 true).delivered =
        [sampleEntry] ∧
      (queryCore [sampleEntry] bufLen2 true false 0 true).ctxOut =
        some (0 + 1))) :=
  ⟨by decide, by decide,
    C4_single_entry_too_small [sampleEntry] sampleEntry [] 16 0 true
      (by decide) (by decide)⟩

/-- C5: a multi-entry query (`returnSingleEntry = false`,
`restartScan = false`) on a non-empty remainder whose very first
unconsumed entry does not fit returns *more entries* — not *buffer too
small* — delivers zero records (no bytes are copied), and writes the
cursor back unchanged from its pre-call value. -/
theorem C5_multi_entry_zero_progress (es : List DirEntry) (e : DirEntry)
    (rest : List DirEntry) (bufLen k : Nat) (retLenReq : Bool)
    (hdrop : es.drop k = e :: rest)
    (hsmall : bufLen < sizeofODI + entrySize e) :
    (queryCore es bufLen false false k retLenReq).status = .moreEntries ∧
    (queryCore es bufLen false false k retLenReq).delivered = [] ∧
    (queryCore es bufLen false false k retLenReq).copyBytes = 0 ∧
    (queryCore es bufLen false false k retLenReq).ctxOut = some k := by
  have hk : startIdx false k ≤ es.length := by
    simp only [startIdx, Bool.false_eq_true, if_false]
    by_contra hgt
    rw [List.drop_eq_nil_iff.mpr (by omega)] at hdrop
    cases hdrop
  have hq := scanPhase_eq es bufLen false false k hk
  simp only [startIdx, Bool.false_eq_true, if_false] at hq
  rw [hdrop] at hq
  have hfit : ¬ (sizeofODI + entrySize e ≤ bufLen) := Nat.not_le.mpr hsmall
  have hD : specStage bufLen false (e :: rest) sizeofODI = [] := by
    rw [specStage_cons, if_neg hfit]
  have hst : statusOf bufLen false (e :: rest) sizeofODI .noMoreEntries =
      .noMoreEntries := by
    simp [statusOf, hfit]
  have hexOf : exOf bufLen false (e :: rest) sizeofODI = false := by
    simp only [exOf, List.isEmpty_cons, Bool.false_or, Bool.not_false,
      Bool.true_and, hD, List.length_nil, List.length_cons]
    simp
  rw [hD, hst, extraOf_false] at hq
  refine ⟨?_, ?_, ?_, ?_⟩
  · simp [queryCore, hq, hexOf]
  · simp [queryCore, hq]
  · simp [queryCore, hq, hexOf, ntSuccess]
  · simp [queryCore, hq, hexOf, ntSuccess]

/-- C5 witness: one member needing 40 bytes, multi-entry query with a
16-byte buffer at cursor 0. -/
theorem C5_multi_entry_zero_progress_witness :
    ([sampleEntry].drop 0 = sampleEntry :: []) ∧
    (16 < sizeofODI + entrySize sampleEntry) ∧
    ((queryCore [sampleEntry] 16 false false 0 true).status =
      .moreEntries ∧
    (queryCore [sampleEntry] 16 false false 0 true).delivered = [] ∧
    (queryCore [sampleEntry] 16 false false 0 true).copyBytes = 0 ∧
    (queryCore [sampleEntry] 16 false false 0 true).ctxOut = some 0) :=
  ⟨by decide, by decide,
    C5_multi_entry_zero_progress [sampleEntry] sampleEntry [] 16 0 true
      (by decide) (by decide)⟩

/-- C10 counterexample: with one member needing 24 bytes and
`bufferLength = 16` in single-entry mode, the too-small path adds the
entry's size to `RequiredSize`, which then exceeds `bufferLength`
(40 > 16) while nothing is copied — refuting the claim that
`runningRequired` never exceeds `bufferLength`. -/
theorem C10_counterexample :
    (queryCore [sampleEntry] 16 true true 0 true).required = 40 ∧
    ¬ ((queryCore [sampleEntry] 16 true true 0 true).required ≤ 16) ∧
    (queryCore [sampleEntry] 16 true true 0 true).copyBytes = 0 := by
  decide

/-- C10 (amended): the bytes staged and copied out (`CopyBytes`) never
exceed the final `RequiredSize` nor `bufferLength` — so neither the compact-staging writes into the
`bufferLength`-byte scratch buffer nor the final copy-out run past
`bufferLength` bytes — and whenever any bytes are staged, `CopyBytes`
equals the final `RequiredSize` (which is then itself within
`bufferLength`); `RequiredSize` can exceed `bufferLength` only on paths
that copy nothing (the too-small and undersized-buffer cases). -/
theorem C10_copy_bounds (es : List DirEntry) (bufLen : Nat)
    (single restart : Bool) (ctx : Nat) (retLenReq : Bool) :
    (queryCore es bufLen single restart ctx retLenReq).copyBytes ≤
      (queryCore es bufLen single restart ctx retLenReq).required ∧
    (queryCore es bufLen single restart ctx retLenReq).copyBytes ≤
      bufLen ∧
    ((queryCore es bufLen single restart ctx retLenReq).copyBytes ≠ 0 →
      (queryCore es bufLen single restart ctx retLenReq).copyBytes =
        (queryCore es bufLen single restart ctx retLenReq).required) := by
  by_cases hk : startIdx restart ctx ≤ es.length
  · have hq := scanPhase_eq es bufLen single restart ctx hk
    by_cases hD0 : specStage bufLen single
        (es.drop (startIdx restart ctx)) sizeofODI = []
    · rw [hD0] at hq
      simp [queryCore, hq]
    · have hD0' : 0 < (specStage bufLen single
          (es.drop (startIdx restart ctx)) sizeofODI).length :=
        List.length_pos.mpr hD0
      have hsum := specStage_sum_le bufLen single
        (es.drop (startIdx restart ctx)) sizeofODI hD0
      have hheap := sum_entrySize_heap (specStage bufLen single
        (es.drop (startIdx restart ctx)) sizeofODI)
      have hextra : extraOf bufLen single
          (es.drop (startIdx restart ctx)) sizeofODI = 0 := by
        rcases hdrop : es.drop (startIdx restart ctx) with _ | ⟨e, rest⟩
        · rfl
        · rw [hdrop] at hD0
          simp only [extraOf]
          by_cases hcond : single = true ∧ bufLen < sizeofODI + entrySize e
          · exfalso
            apply hD0
            rw [specStage_cons, if_neg (Nat.not_le.mpr hcond.2)]
          · rw [if_neg hcond]
      rw [hextra] at hq
      simp only [sizeofODI, sizeofUNICODE_STRING, sizeofWCHAR]
        at hsum hheap hq hD0'
      simp only [queryCore, hq, compactLoop_eq]
      simp only [sizeofODI, sizeofUNICODE_STRING, sizeofWCHAR]
      refine ⟨?_, ?_, ?_⟩
      · split <;> try split
        all_goals dsimp only
        all_goals omega
      · split <;> try split
        all_goals dsimp only
        all_goals omega
      · split <;> try split
        all_goals intro h
        all_goals dsimp only at h ⊢
        all_goals omega
  · have hq := scanPhase_ge es bufLen single restart ctx
      (Nat.le_of_not_le hk)
    simp [queryCore, hq, ntSuccess]

/-- C8: whenever a query delivers `n > 0` records, the output consists of
`n + 1` fixed-size records whose last slot is the all-zero terminator,
immediately followed (at wide-character offset
`(n + 1) * sizeof(record) / sizeof(WCHAR)`) by the packed string heap in
which each present name and each type name is followed by one wide null;
each delivered record's descriptors carry the strings' byte lengths and
point at their own null-terminated characters inside that heap (a NULL
name descriptor exactly for anonymous members); and the bytes copied
equal the record array plus the heap. -/
theorem C8_output_layout (es : List DirEntry) (bufLen : Nat)
    (single restart : Bool) (ctx : Nat) (retLenReq : Bool)
    (hsucc : ntSuccess
      (queryCore es bufLen single restart ctx retLenReq).status = true)
    (hne :
      (queryCore es bufLen single restart ctx retLenReq).delivered ≠ []) :
    (queryCore es bufLen single restart ctx retLenReq).records =
      recsOf (queryCore es bufLen single restart ctx retLenReq).delivered
        (((queryCore es bufLen single restart ctx
            retLenReq).delivered.length + 1) *
          (sizeofODI / sizeofWCHAR)) ++ [zeroRecord] ∧
    (queryCore es bufLen single restart ctx retLenReq).records.length =
      (queryCore es bufLen single restart ctx
        retLenReq).delivered.length + 1 ∧
    (queryCore es bufLen single restart ctx
      retLenReq).records.getLast? = some zeroRecord ∧
    (queryCore es bufLen single restart ctx retLenReq).heap =
      heapSpec (queryCore es bufLen single restart ctx
        retLenReq).delivered ∧
    (queryCore es bufLen single restart ctx retLenReq).copyBytes =
      (queryCore es bufLen single restart ctx retLenReq).records.length *
        sizeofODI +
      sizeofWCHAR *
        (queryCore es bufLen single restart ctx retLenReq).heap.length ∧
    List.Forall₂
      (recMatches
        (((queryCore es bufLen single restart ctx
            retLenReq).delivered.length + 1) * (sizeofODI / sizeofWCHAR))
        (queryCore es bufLen single restart ctx retLenReq).heap)
      (queryCore es bufLen single restart ctx retLenReq).delivered
      ((queryCore es bufLen single restart ctx retLenReq).records.take
        (queryCore es bufLen single restart ctx
          retLenReq).delivered.length) := by
  have hlen : 0 < (queryCore es bufLen single restart ctx
      retLenReq).delivered.length := List.length_pos.mpr hne
  simp only [queryCore] at hsucc hlen ⊢
  rw [if_pos ⟨hsucc, hlen⟩, compactLoop_eq]
  refine ⟨rfl, ?_, ?_, rfl, ?_, ?_⟩
  · simp [recsOf_length]
  · exact List.getLast?_concat _
  · simp [recsOf_length]
  · rw [List.take_left' (recsOf_length _ _)]
    have hm := recsOf_matches
      (scanPhase es bufLen single restart ctx).1.staged
      (((scanPhase es bufLen single restart ctx).1.staged.length + 1) *
        (sizeofODI / sizeofWCHAR)) []
    simpa using hm

/-- C8 witness: one member, a 40-byte buffer, single-entry query. -/
theorem C8_output_layout_witness :
    ntSuccess (queryCore [sampleEntry] 40 true true 0 true).status =
      true ∧
    (queryCore [sampleEntry] 40 true true 0 true).delivered ≠ [] ∧
    ((queryCore [sampleEntry] 40 true true 0 true).records =
      recsOf (queryCore [sampleEntry] 40 true true 0 true).delivered
        (((queryCore [sampleEntry] 40 true true
            0 true).delivered.length + 1) *
          (sizeofODI / sizeofWCHAR)) ++ [zeroRecord] ∧
    (queryCore [sampleEntry] 40 true true 0 true).records.length =
      (queryCore [sampleEntry] 40 true true 0 true).delivered.length +
        1 ∧
    (queryCore [sampleEntry] 40 true true 0 true).records.getLast? =
      some zeroRecord ∧
    (queryCore [sampleEntry] 40 true true 0 true).heap =
      heapSpec (queryCore [sampleEntry] 40 true true 0 true).delivered ∧
    (queryCore [sampleEntry] 40 true true 0 true).copyBytes =
      (queryCore [sampleEntry] 40 true true 0 true).records.length *
        sizeofODI +
      sizeofWCHAR *
        (queryCore [sampleEntry] 40 true true 0 true).heap.length ∧
    List.Forall₂
      (recMatches
        (((queryCore [sampleEntry] 40 true true
            0 true).delivered.length + 1) * (sizeofODI / sizeofWCHAR))
        (queryCore [sampleEntry] 40 true true 0 true).heap)
      (queryCore [sampleEntry] 40 true true 0 true).delivered
      ((queryCore [sampleEntry] 40 true true 0 true).records.take
        (queryCore [sampleEntry] 40 true true 0 true).delivered.length)) :=
  ⟨by decide, by decide,
    C8_output_layout [sampleEntry] 40 true true 0 true (by decide)
      (by decide)⟩
